import Mathlib

/-!
Verification of the ZSecureDatabase registry contract of the ZSecureDB
repository.

The repository ships the contract's callers (hardhat tasks, mock and
Sepolia test suites, the React frontend) but the Solidity source
`contracts/ZSecureDatabase.sol` itself is not among the provided files.
The contract is therefore modelled from the specification (spec.md
sections 3, 4.1, 6, 7 and the README), as a deterministic state machine:
per-database records holding an encrypted address handle and an ordered
list of encrypted integer entries, an owner index, an ACL grant list and
an event log.  External collaborators (the FHE runtime, the relayer/KMS)
appear only through a proof-validity flag and, for the decryption
hyperproperty, an abstract handle-to-plaintext mapping.
-/

namespace ZSecureDB

/-- Accounts are modelled as natural numbers (abstract EVM addresses). -/
abbrev Account := Nat

/-- Ciphertext handles are opaque on-chain references to encrypted values;
modelled as natural numbers. -/
abbrev Handle := Nat

/-- A principal that can hold a decryption right in the external ACL:
either the registry contract itself or an external account. -/
inductive Grantee where
  | contractSelf : Grantee
  | account : Account → Grantee
deriving DecidableEq, Repr

/-- Modelled from the spec: an entry of a database — encrypted integer
handle, submission timestamp, submitting account (spec.md section 3). -/
structure Entry where
  cipher : Handle
  timestamp : Nat
  submittedBy : Account
deriving DecidableEq, Repr

/-- Modelled from the spec: a database record — name, owner, creation and
update timestamps, encrypted address handle, ordered list of entries
(spec.md section 3).  The identifier is the key under which the record is
stored in the registry. -/
structure DatabaseRecord where
  name : String
  owner : Account
  createdAt : Nat
  updatedAt : Nat
  encryptedAddress : Handle
  entries : List Entry
deriving DecidableEq, Repr

/-- The four events of the contract ABI (spec.md section 6, README). -/
inductive Event where
  | DatabaseCreated : Nat → Account → String → Event
  | DatabaseEntryStored : Nat → Nat → Account → Event
  | DatabaseAddressShared : Nat → Account → Event
  | DatabaseEntryShared : Nat → Nat → Account → Event
deriving DecidableEq, Repr

/-- Modelled from the spec: the whole observable contract state — the
public counter of identifiers, the identifier-keyed record store, the
owner index, the external ACL grants recorded so far, and the emitted
event log (spec.md sections 2, 3). -/
structure ContractState where
  nextDatabaseId : Nat
  databases : List (Nat × DatabaseRecord)
  ownerDatabases : List (Account × List Nat)
  acl : List (Handle × Grantee)
  eventLog : List Event
deriving DecidableEq, Repr

/-- The state of a freshly deployed contract: everything empty. -/
def initState : ContractState :=
  { nextDatabaseId := 0, databases := [], ownerDatabases := [], acl := [], eventLog := [] }

/-- Association-list lookup of a database record by identifier. -/
def lookupDatabase : List (Nat × DatabaseRecord) → Nat → Option DatabaseRecord
  | [], _ => none
  | (i, db) :: rest, databaseId =>
      if i = databaseId then some db else lookupDatabase rest databaseId

/-- The database record stored under an identifier, when it exists. -/
def getDatabase (st : ContractState) (databaseId : Nat) : Option DatabaseRecord :=
  lookupDatabase st.databases databaseId

/-- Replace the record stored under an identifier (first occurrence). -/
def setDatabase : List (Nat × DatabaseRecord) → Nat → DatabaseRecord →
    List (Nat × DatabaseRecord)
  | [], _, _ => []
  | (i, db) :: rest, databaseId, newDb =>
      if i = databaseId then (i, newDb) :: rest
      else (i, db) :: setDatabase rest databaseId newDb

/-- Lookup of the owner index: the identifiers of the databases an account
has created (empty when the account has created none). -/
def lookupOwned : List (Account × List Nat) → Account → List Nat
  | [], _ => []
  | (b, l) :: rest, a => if b = a then l else lookupOwned rest a

/-- Append a database identifier to an owner's list in the owner index. -/
def appendOwned : List (Account × List Nat) → Account → Nat →
    List (Account × List Nat)
  | [], a, databaseId => [(a, [databaseId])]
  | (b, l) :: rest, a, databaseId =>
      if b = a then (b, l ++ [databaseId]) :: rest
      else (b, l) :: appendOwned rest a databaseId

/-- Modelled from the spec: `createDatabase(name, encryptedAddressHandle,
proof)` — validates the ciphertext proof via the external encryption
runtime (here the flag `proofValid`), stores a new record under a fresh
sequential identifier, grants the caller and the contract itself
decryption rights on the handle, appends the identifier to the caller's
owned-database list, emits a creation event, and returns the new
identifier (spec.md section 4.1).  Returns `none` on revert. -/
def createDatabase (st : ContractState) (caller : Account) (name : String)
    (encryptedAddressHandle : Handle) (proofValid : Bool) (now : Nat) :
    Option (ContractState × Nat) :=
  if proofValid then
    let databaseId := st.nextDatabaseId
    let record : DatabaseRecord :=
      { name := name, owner := caller, createdAt := now, updatedAt := now,
        encryptedAddress := encryptedAddressHandle, entries := [] }
    some
      ({ nextDatabaseId := databaseId + 1,
         databases := st.databases ++ [(databaseId, record)],
         ownerDatabases := appendOwned st.ownerDatabases caller databaseId,
         acl := st.acl ++
           [(encryptedAddressHandle, Grantee.contractSelf),
            (encryptedAddressHandle, Grantee.account caller)],
         eventLog := st.eventLog ++ [Event.DatabaseCreated databaseId caller name] },
       databaseId)
  else none

/-- Modelled from the spec: `storeEncryptedValue(databaseId,
encryptedValueHandle, encryptedAddressHandle, proof)` — requires the
caller to re-supply the database's address ciphertext handle as a
capability check (the supplied ciphertext handle must match the stored
one; equality is not verified in plaintext), validates the proof, appends
a new entry, grants decrypt rights to contract and caller, updates the
record's timestamp and emits an entry-stored event (spec.md section 4.1).
Returns `none` on revert. -/
def storeEncryptedValue (st : ContractState) (caller : Account)
    (databaseId : Nat) (encryptedValueHandle encryptedAddressHandle : Handle)
    (proofValid : Bool) (now : Nat) : Option ContractState :=
  (getDatabase st databaseId).bind fun db =>
      if encryptedAddressHandle = db.encryptedAddress then
        if proofValid then
          let entry : Entry :=
            { cipher := encryptedValueHandle, timestamp := now, submittedBy := caller }
          some
            { st with
              databases := setDatabase st.databases databaseId
                { db with entries := db.entries ++ [entry], updatedAt := now },
              acl := st.acl ++
                [(encryptedValueHandle, Grantee.contractSelf),
                 (encryptedValueHandle, Grantee.account caller)],
              eventLog := st.eventLog ++
                [Event.DatabaseEntryStored databaseId db.entries.length caller] }
        else none
      else none

/-- Modelled from the spec: `shareEncryptedValue(databaseId, entryIndex,
targetAccount)` — owner-only; grants decryption rights on the entry's
value handle to an additional account via the external ACL primitive and
emits a sharing event (spec.md section 4.1).  Returns `none` on revert
(unknown identifier, non-owner caller, out-of-range index). -/
def shareEncryptedValue (st : ContractState) (caller : Account)
    (databaseId entryIndex : Nat) (target : Account) : Option ContractState :=
  (getDatabase st databaseId).bind fun db =>
      if caller = db.owner then
        (db.entries.get? entryIndex).bind fun entry =>
            some
              { st with
                acl := st.acl ++ [(entry.cipher, Grantee.account target)],
                eventLog := st.eventLog ++
                  [Event.DatabaseEntryShared databaseId entryIndex target] }
      else none

/-- Modelled from the spec: `refreshAddressAccess(databaseId,
targetAccount)` — owner-only; grants decryption rights on the database's
address handle to an additional account via the external ACL primitive
and emits a sharing event (spec.md section 4.1).  Returns `none` on
revert. -/
def refreshAddressAccess (st : ContractState) (caller : Account)
    (databaseId : Nat) (target : Account) : Option ContractState :=
  (getDatabase st databaseId).bind fun db =>
      if caller = db.owner then
        some
          { st with
            acl := st.acl ++ [(db.encryptedAddress, Grantee.account target)],
            eventLog := st.eventLog ++
              [Event.DatabaseAddressShared databaseId target] }
      else none

/-- The metadata tuple returned by `getDatabaseMetadata` (name, owner,
createdAt, updatedAt, valueCount), as consumed by the tests and the
frontend. -/
structure DatabaseMetadata where
  name : String
  owner : Account
  createdAt : Nat
  updatedAt : Nat
  valueCount : Nat
deriving DecidableEq, Repr

/-- Modelled from the spec: view accessor for a database's metadata
(spec.md section 4.1). -/
def getDatabaseMetadata (st : ContractState) (databaseId : Nat) :
    Option DatabaseMetadata :=
  (getDatabase st databaseId).map fun db =>
    { name := db.name, owner := db.owner, createdAt := db.createdAt,
      updatedAt := db.updatedAt, valueCount := db.entries.length }

/-- Modelled from the spec: view accessor for the encrypted address handle
(spec.md section 4.1). -/
def getEncryptedDatabaseAddress (st : ContractState) (databaseId : Nat) :
    Option Handle :=
  (getDatabase st databaseId).map fun db => db.encryptedAddress

/-- Modelled from the spec: view accessor for an entry by index (spec.md
section 4.1); returns the entry's cipher handle, timestamp and submitter. -/
def getEncryptedValue (st : ContractState) (databaseId entryIndex : Nat) :
    Option Entry :=
  (getDatabase st databaseId).bind fun db => db.entries.get? entryIndex

/-- Modelled from the spec: view accessor for an owner's database
identifier list (spec.md section 4.1). -/
def getOwnerDatabases (st : ContractState) (a : Account) : List Nat :=
  lookupOwned st.ownerDatabases a

/-- One call to the contract: the four mutating entry points and the four
view accessors (spec.md sections 4.1, 6). -/
inductive Op where
  | create (caller : Account) (name : String) (handle : Handle)
      (proofValid : Bool) (now : Nat)
  | store (caller : Account) (databaseId : Nat)
      (valueHandle addressHandle : Handle) (proofValid : Bool) (now : Nat)
  | share (caller : Account) (databaseId entryIndex : Nat) (target : Account)
  | refresh (caller : Account) (databaseId : Nat) (target : Account)
  | viewMetadata (databaseId : Nat)
  | viewAddress (databaseId : Nat)
  | viewEntry (databaseId entryIndex : Nat)
  | viewOwned (a : Account)

/-- The post-state of a successful call; `none` means the call reverts.
View calls succeed or revert without touching the state. -/
def step (st : ContractState) : Op → Option ContractState
  | Op.create caller name handle proofValid now =>
      (createDatabase st caller name handle proofValid now).map Prod.fst
  | Op.store caller databaseId valueHandle addressHandle proofValid now =>
      storeEncryptedValue st caller databaseId valueHandle addressHandle proofValid now
  | Op.share caller databaseId entryIndex target =>
      shareEncryptedValue st caller databaseId entryIndex target
  | Op.refresh caller databaseId target =>
      refreshAddressAccess st caller databaseId target
  | Op.viewMetadata databaseId =>
      (getDatabaseMetadata st databaseId).map fun _ => st
  | Op.viewAddress databaseId =>
      (getEncryptedDatabaseAddress st databaseId).map fun _ => st
  | Op.viewEntry databaseId entryIndex =>
      (getEncryptedValue st databaseId entryIndex).map fun _ => st
  | Op.viewOwned _ =>
      some st

/-- The state after a call on the ledger: a reverted transaction leaves
the state exactly as it was (atomicity of the underlying ledger, spec.md
section 5). -/
def exec (st : ContractState) (op : Op) : ContractState :=
  (step st op).getD st

/-- States reachable from a freshly deployed contract by successful
calls. -/
inductive Reachable : ContractState → Prop where
  | init : Reachable initState
  | next {st st' : ContractState} {op : Op} :
      Reachable st → step st op = some st' → Reachable st'

/-- Modelled from the spec: the relayer/KMS user-decryption ceremony
(spec.md sections 6, 8; the relayer itself is out of scope).  The
abstract mapping `plaintextOf` is the encryption runtime's association of
ciphertext handles to cleartexts; decryption of a handle by an account
succeeds exactly when the ACL records a grant of that handle to that
account, and then resolves the handle to its cleartext. -/
def userDecrypt (plaintextOf : Handle → Nat) (st : ContractState)
    (a : Account) (h : Handle) : Option Nat :=
  if (h, Grantee.account a) ∈ st.acl then some (plaintextOf h) else none

/-- Recogniser for creation events, used to count databases ever created. -/
def isCreatedEvent : Event → Bool
  | Event.DatabaseCreated _ _ _ => true
  | _ => false

/-- Concrete scenario state: account 7 creates database "Vault A" with
address handle 100 at time 5 (the mock-test flow). -/
def exSt1 : ContractState := exec initState (Op.create 7 "Vault A" 100 true 5)

/-- Concrete scenario state: account 7 then stores value handle 200,
re-supplying address handle 100, at time 6. -/
def exSt2 : ContractState := exec exSt1 (Op.store 7 0 200 100 true 6)

/-- Concrete scenario state: account 7 then shares entry 0 of database 0
with account 9. -/
def exSt3 : ContractState := exec exSt2 (Op.share 7 0 0 9)

/-- Lookup in an association list is stable under appending on the right
when the key is already bound. -/
theorem lookupDatabase_append (l m : List (Nat × DatabaseRecord)) (databaseId : Nat)
    (db : DatabaseRecord) (h : lookupDatabase l databaseId = some db) :
    lookupDatabase (l ++ m) databaseId = some db := by
  induction l with
  | nil => simp [lookupDatabase] at h
  | cons p rest ih =>
      obtain ⟨i, d⟩ := p
      by_cases hi : i = databaseId
      · simp [lookupDatabase, hi] at h ⊢
        exact h
      · simp only [List.cons_append, lookupDatabase, if_neg hi] at h ⊢
        exact ih h

/-- Looking up the key just replaced by `setDatabase` returns the new
record, provided the key was bound before. -/
theorem lookupDatabase_setDatabase_self (l : List (Nat × DatabaseRecord))
    (databaseId : Nat) (d newDb : DatabaseRecord)
    (h : lookupDatabase l databaseId = some d) :
    lookupDatabase (setDatabase l databaseId newDb) databaseId = some newDb := by
  induction l with
  | nil => simp [lookupDatabase] at h
  | cons p rest ih =>
      obtain ⟨i, db⟩ := p
      by_cases hi : i = databaseId
      · simp [setDatabase, lookupDatabase, hi]
      · simp only [lookupDatabase, if_neg hi] at h
        simp only [setDatabase, if_neg hi, lookupDatabase, if_neg hi]
        exact ih h

/-- Looking up any other key is unchanged by `setDatabase`. -/
theorem lookupDatabase_setDatabase_ne (l : List (Nat × DatabaseRecord))
    (databaseId id' : Nat) (newDb : DatabaseRecord) (h : id' ≠ databaseId) :
    lookupDatabase (setDatabase l databaseId newDb) id' = lookupDatabase l id' := by
  induction l with
  | nil => simp [setDatabase]
  | cons p rest ih =>
      obtain ⟨i, db⟩ := p
      by_cases hi : i = databaseId
      · subst hi
        have hne : ¬ i = id' := fun hh => h (hh.symm)
        simp [setDatabase, lookupDatabase, hne]
      · simp only [setDatabase, if_neg hi, lookupDatabase]
        by_cases h2 : i = id' <;> simp [h2, ih]

/-- Replacing a record keeps the number of stored records. -/
theorem setDatabase_length (l : List (Nat × DatabaseRecord)) (databaseId : Nat)
    (newDb : DatabaseRecord) :
    (setDatabase l databaseId newDb).length = l.length := by
  induction l with
  | nil => rfl
  | cons p rest ih =>
      obtain ⟨i, db⟩ := p
      by_cases hi : i = databaseId <;> simp [setDatabase, hi, ih]

/-- The element appended at the end of a list sits at index `length`. -/
theorem entries_get_append_length (l : List Entry) (e : Entry) :
    (l ++ [e]).get? l.length = some e := by
  simp [List.get?_eq_getElem?]

/-- Characterisation of a successful createDatabase call: the proof must
be valid, the returned identifier is the current counter, and the
post-state is the input state with the new record, owner-index entry, ACL
grants and creation event added. -/
theorem createDatabase_eq_some (st : ContractState) (caller : Account)
    (name : String) (h : Handle) (p : Bool) (now : Nat)
    (st' : ContractState) (databaseId : Nat) :
    createDatabase st caller name h p now = some (st', databaseId) ↔
      p = true ∧ databaseId = st.nextDatabaseId ∧
      st' = { nextDatabaseId := st.nextDatabaseId + 1,
              databases := st.databases ++ [(st.nextDatabaseId,
                { name := name, owner := caller, createdAt := now, updatedAt := now,
                  encryptedAddress := h, entries := [] })],
              ownerDatabases := appendOwned st.ownerDatabases caller st.nextDatabaseId,
              acl := st.acl ++
                [(h, Grantee.contractSelf), (h, Grantee.account caller)],
              eventLog := st.eventLog ++
                [Event.DatabaseCreated st.nextDatabaseId caller name] } := by
  cases p with
  | false => simp [createDatabase]
  | true =>
      simp only [createDatabase, if_pos, Option.some.injEq, Prod.mk.injEq, true_and]
      constructor
      · rintro ⟨h1, h2⟩
        exact ⟨h2.symm, h1.symm⟩
      · rintro ⟨h1, h2⟩
        exact ⟨h2.symm, h1.symm⟩

/-- Characterisation of a successful storeEncryptedValue call: the
database must exist, the supplied address handle must equal the stored
one, the proof must be valid, and the post-state is the input state with
the entry appended, the timestamp updated, the ACL grants and the
entry-stored event added. -/
theorem storeEncryptedValue_eq_some (st : ContractState) (caller : Account)
    (databaseId : Nat) (v a : Handle) (p : Bool) (now : Nat)
    (st' : ContractState) :
    storeEncryptedValue st caller databaseId v a p now = some st' ↔
      ∃ db, getDatabase st databaseId = some db ∧ a = db.encryptedAddress ∧
        p = true ∧
        st' = { st with
          databases := setDatabase st.databases databaseId
            { db with
              entries := db.entries ++
                [{ cipher := v, timestamp := now, submittedBy := caller }],
              updatedAt := now },
          acl := st.acl ++ [(v, Grantee.contractSelf), (v, Grantee.account caller)],
          eventLog := st.eventLog ++
            [Event.DatabaseEntryStored databaseId db.entries.length caller] } := by
  constructor
  · intro hcall
    rw [storeEncryptedValue] at hcall
    cases hdb : getDatabase st databaseId with
    | none =>
        rw [hdb, Option.none_bind] at hcall
        exact absurd hcall (by simp)
    | some db =>
        rw [hdb, Option.some_bind] at hcall
        by_cases ha : a = db.encryptedAddress
        · rw [if_pos ha] at hcall
          cases p with
          | false => exact absurd hcall (by simp)
          | true =>
              rw [if_pos rfl] at hcall
              exact ⟨db, rfl, ha, rfl, (Option.some.inj hcall).symm⟩
        · rw [if_neg ha] at hcall
          exact absurd hcall (by simp)
  · rintro ⟨db, hdb, ha, hp, rfl⟩
    rw [storeEncryptedValue, hdb, Option.some_bind, if_pos ha, hp, if_pos rfl]

/-- Characterisation of a successful shareEncryptedValue call: the
database must exist, the caller must be its owner, the index must be in
range, and the post-state adds exactly the ACL grant on the entry's
cipher and the sharing event. -/
theorem shareEncryptedValue_eq_some (st : ContractState) (caller : Account)
    (databaseId entryIndex : Nat) (target : Account) (st' : ContractState) :
    shareEncryptedValue st caller databaseId entryIndex target = some st' ↔
      ∃ db entry, getDatabase st databaseId = some db ∧ caller = db.owner ∧
        db.entries.get? entryIndex = some entry ∧
        st' = { st with
          acl := st.acl ++ [(entry.cipher, Grantee.account target)],
          eventLog := st.eventLog ++
            [Event.DatabaseEntryShared databaseId entryIndex target] } := by
  constructor
  · intro hcall
    rw [shareEncryptedValue] at hcall
    cases hdb : getDatabase st databaseId with
    | none =>
        rw [hdb, Option.none_bind] at hcall
        exact absurd hcall (by simp)
    | some db =>
        rw [hdb, Option.some_bind] at hcall
        by_cases ho : caller = db.owner
        · rw [if_pos ho] at hcall
          cases he : db.entries.get? entryIndex with
          | none =>
              rw [he, Option.none_bind] at hcall
              exact absurd hcall (by simp)
          | some entry =>
              rw [he, Option.some_bind] at hcall
              exact ⟨db, entry, rfl, ho, he, (Option.some.inj hcall).symm⟩
        · rw [if_neg ho] at hcall
          exact absurd hcall (by simp)
  · rintro ⟨db, entry, hdb, ho, he, rfl⟩
    rw [shareEncryptedValue, hdb, Option.some_bind, if_pos ho, he, Option.some_bind]

/-- Characterisation of a successful refreshAddressAccess call: the
database must exist, the caller must be its owner, and the post-state
adds exactly the ACL grant on the address handle and the sharing event. -/
theorem refreshAddressAccess_eq_some (st : ContractState) (caller : Account)
    (databaseId : Nat) (target : Account) (st' : ContractState) :
    refreshAddressAccess st caller databaseId target = some st' ↔
      ∃ db, getDatabase st databaseId = some db ∧ caller = db.owner ∧
        st' = { st with
          acl := st.acl ++ [(db.encryptedAddress, Grantee.account target)],
          eventLog := st.eventLog ++
            [Event.DatabaseAddressShared databaseId target] } := by
  constructor
  · intro hcall
    rw [refreshAddressAccess] at hcall
    cases hdb : getDatabase st databaseId with
    | none =>
        rw [hdb, Option.none_bind] at hcall
        exact absurd hcall (by simp)
    | some db =>
        rw [hdb, Option.some_bind] at hcall
        by_cases ho : caller = db.owner
        · rw [if_pos ho] at hcall
          exact ⟨db, rfl, ho, (Option.some.inj hcall).symm⟩
        · rw [if_neg ho] at hcall
          exact absurd hcall (by simp)
  · rintro ⟨db, hdb, ho, rfl⟩
    rw [refreshAddressAccess, hdb, Option.some_bind, if_pos ho]

/-- C1: a call to storeEncryptedValue on an existing database succeeds
only if the supplied address ciphertext handle equals the handle stored
for that database — the capability check compares the ciphertext handles
themselves, never plaintext — and with an existing database any
mismatching handle makes the call revert. -/
theorem C1_store_requires_address_handle :
    (∀ st caller databaseId v a p now st',
      storeEncryptedValue st caller databaseId v a p now = some st' →
      ∃ db, getDatabase st databaseId = some db ∧ a = db.encryptedAddress) ∧
    (∀ st caller databaseId v a p now db,
      getDatabase st databaseId = some db → a ≠ db.encryptedAddress →
      storeEncryptedValue st caller databaseId v a p now = none) := by
  constructor
  · intro st caller databaseId v a p now st' h
    obtain ⟨db, hdb, ha, -, -⟩ := (storeEncryptedValue_eq_some ..).mp h
    exact ⟨db, hdb, ha⟩
  · intro st caller databaseId v a p now db hdb ha
    rw [storeEncryptedValue, hdb, Option.some_bind, if_neg ha]

/-- Witness for C1 on the concrete scenario: after "Vault A" is created
with address handle 100, storing with handle 100 succeeds and the theorem
recovers that 100 is exactly the stored handle. -/
theorem C1_store_requires_address_handle_witness :
    ∃ db, getDatabase exSt1 0 = some db ∧ 100 = db.encryptedAddress :=
  C1_store_requires_address_handle.1 exSt1 7 0 200 100 true 6 exSt2 (by decide)

/-- C2: a successful storeEncryptedValue call increments the database's
valueCount (as reported by getDatabaseMetadata) by exactly one, and the
newly stored entry is retrievable via getEncryptedValue at index
count-1. -/
theorem C2_store_increments_count :
    ∀ st caller databaseId v a p now st' meta,
      storeEncryptedValue st caller databaseId v a p now = some st' →
      getDatabaseMetadata st databaseId = some meta →
      ∃ meta', getDatabaseMetadata st' databaseId = some meta' ∧
        meta'.valueCount = meta.valueCount + 1 ∧
        getEncryptedValue st' databaseId (meta'.valueCount - 1) =
          some { cipher := v, timestamp := now, submittedBy := caller } := by
  intro st caller databaseId v a p now st' meta hstore hmeta
  obtain ⟨db, hdb, ha, hp, rfl⟩ := (storeEncryptedValue_eq_some ..).mp hstore
  have hlook :
      lookupDatabase
        (setDatabase st.databases databaseId
          { db with
            entries := db.entries ++
              [{ cipher := v, timestamp := now, submittedBy := caller }],
            updatedAt := now })
        databaseId =
      some { db with
        entries := db.entries ++
          [{ cipher := v, timestamp := now, submittedBy := caller }],
        updatedAt := now } :=
    lookupDatabase_setDatabase_self st.databases databaseId db _ hdb
  have hmetaval : meta.valueCount = db.entries.length := by
    rw [getDatabaseMetadata, hdb] at hmeta
    obtain rfl : _ = meta := Option.some.inj hmeta
    rfl
  refine ⟨{ name := db.name, owner := db.owner, createdAt := db.createdAt,
            updatedAt := now, valueCount := db.entries.length + 1 }, ?_, ?_, ?_⟩
  · simp only [getDatabaseMetadata, getDatabase]
    rw [hlook]
    simp
  · simp [hmetaval]
  · simp only [getEncryptedValue, getDatabase]
    rw [hlook, Option.some_bind]
    simp [List.get?_eq_getElem?]

/-- Witness for C2 on the concrete scenario: storing handle 200 into the
fresh "Vault A" database raises valueCount from 0 to 1 and makes the
entry readable at index 0. -/
theorem C2_store_increments_count_witness :
    ∃ meta', getDatabaseMetadata exSt2 0 = some meta' ∧
      meta'.valueCount =
        ({ name := "Vault A", owner := 7, createdAt := 5, updatedAt := 5,
           valueCount := 0 } : DatabaseMetadata).valueCount + 1 ∧
      getEncryptedValue exSt2 0 (meta'.valueCount - 1) =
        some { cipher := 200, timestamp := 6, submittedBy := 7 } :=
  C2_store_increments_count exSt1 7 0 200 100 true 6 exSt2 _ (by decide) (by decide)

/-- C3: createDatabase returns the identifier of the new database; the
identifiers come from the public counter, which starts at zero on a fresh
instance, increments by one on each successful creation, and never
decreases under any call — so the identifiers of successive creations
are monotonically increasing starting at zero. -/
theorem C3_ids_monotone :
    initState.nextDatabaseId = 0 ∧
    (∀ st caller name h p now st' databaseId,
      createDatabase st caller name h p now = some (st', databaseId) →
      databaseId = st.nextDatabaseId ∧ st'.nextDatabaseId = databaseId + 1) ∧
    (∀ st op st', step st op = some st' →
      st.nextDatabaseId ≤ st'.nextDatabaseId) := by
  refine ⟨rfl, ?_, ?_⟩
  · intro st caller name h p now st' databaseId hc
    obtain ⟨hp, hid, rfl⟩ := (createDatabase_eq_some ..).mp hc
    exact ⟨hid, by rw [hid]⟩
  · intro st op st' hs
    cases op with
    | create caller name h p now =>
        simp only [step] at hs
        obtain ⟨⟨st1, id1⟩, hc, hfst⟩ := Option.map_eq_some'.mp hs
        obtain rfl : st1 = st' := hfst
        obtain ⟨hp, hid, rfl⟩ := (createDatabase_eq_some ..).mp hc
        exact Nat.le_succ _
    | store caller databaseId v a p now =>
        simp only [step] at hs
        obtain ⟨db, -, -, -, rfl⟩ := (storeEncryptedValue_eq_some ..).mp hs
        exact Nat.le_refl _
    | share caller databaseId entryIndex target =>
        simp only [step] at hs
        obtain ⟨db, entry, -, -, -, rfl⟩ := (shareEncryptedValue_eq_some ..).mp hs
        exact Nat.le_refl _
    | refresh caller databaseId target =>
        simp only [step] at hs
        obtain ⟨db, -, -, rfl⟩ := (refreshAddressAccess_eq_some ..).mp hs
        exact Nat.le_refl _
    | viewMetadata databaseId =>
        simp only [step] at hs
        cases hm : getDatabaseMetadata st databaseId with
        | none => rw [hm] at hs; exact absurd hs (by simp)
        | some m =>
            simp only [hm, Option.map_some'] at hs
            obtain rfl : st = st' := Option.some.inj hs
            exact Nat.le_refl _
    | viewAddress databaseId =>
        simp only [step] at hs
        cases hm : getEncryptedDatabaseAddress st databaseId with
        | none => rw [hm] at hs; exact absurd hs (by simp)
        | some m =>
            simp only [hm, Option.map_some'] at hs
            obtain rfl : st = st' := Option.some.inj hs
            exact Nat.le_refl _
    | viewEntry databaseId entryIndex =>
        simp only [step] at hs
        cases hm : getEncryptedValue st databaseId entryIndex with
        | none => rw [hm] at hs; exact absurd hs (by simp)
        | some m =>
            simp only [hm, Option.map_some'] at hs
            obtain rfl : st = st' := Option.some.inj hs
            exact Nat.le_refl _
    | viewOwned a =>
        simp only [step] at hs
        obtain rfl : st = st' := Option.some.inj hs
        exact Nat.le_refl _

/-- Witness for C3 on the concrete scenario: the first creation on a
fresh instance returns identifier 0 and moves the counter to 1. -/
theorem C3_ids_monotone_witness :
    (0 : Nat) = initState.nextDatabaseId ∧ exSt1.nextDatabaseId = 0 + 1 :=
  C3_ids_monotone.2.1 initState 7 "Vault A" 100 true 5 exSt1 0 (by decide)

/-- C4: every mutating entry point is atomic — a reverted call leaves the
whole state unchanged — and each of the listed failure causes does make
the call revert: invalid proof (createDatabase, storeEncryptedValue),
unknown database identifier (store, share, refresh), out-of-range entry
index (shareEncryptedValue), and a non-owner sharing call
(shareEncryptedValue, refreshAddressAccess). -/
theorem C4_reverts_atomic :
    (∀ st op, step st op = none → exec st op = st) ∧
    (∀ st caller name h now,
      createDatabase st caller name h false now = none) ∧
    (∀ st caller databaseId v a now,
      storeEncryptedValue st caller databaseId v a false now = none) ∧
    (∀ st caller databaseId v a p now, getDatabase st databaseId = none →
      storeEncryptedValue st caller databaseId v a p now = none) ∧
    (∀ st caller databaseId i target, getDatabase st databaseId = none →
      shareEncryptedValue st caller databaseId i target = none) ∧
    (∀ st caller databaseId target, getDatabase st databaseId = none →
      refreshAddressAccess st caller databaseId target = none) ∧
    (∀ st caller databaseId i target db, getDatabase st databaseId = some db →
      db.entries.get? i = none →
      shareEncryptedValue st caller databaseId i target = none) ∧
    (∀ st caller databaseId i target db, getDatabase st databaseId = some db →
      caller ≠ db.owner →
      shareEncryptedValue st caller databaseId i target = none ∧
      refreshAddressAccess st caller databaseId target = none) := by
  refine ⟨?_, ?_, ?_, ?_, ?_, ?_, ?_, ?_⟩
  · intro st op h
    simp [exec, h]
  · intro st caller name h now
    simp [createDatabase]
  · intro st caller databaseId v a now
    cases hres : storeEncryptedValue st caller databaseId v a false now with
    | none => rfl
    | some st' =>
        obtain ⟨db, -, -, hp, -⟩ := (storeEncryptedValue_eq_some ..).mp hres
        exact absurd hp (by simp)
  · intro st caller databaseId v a p now hdb
    rw [storeEncryptedValue, hdb, Option.none_bind]
  · intro st caller databaseId i target hdb
    rw [shareEncryptedValue, hdb, Option.none_bind]
  · intro st caller databaseId target hdb
    rw [refreshAddressAccess, hdb, Option.none_bind]
  · intro st caller databaseId i target db hdb he
    rw [shareEncryptedValue, hdb, Option.some_bind]
    by_cases ho : caller = db.owner
    · rw [if_pos ho, he, Option.none_bind]
    · rw [if_neg ho]
  · intro st caller databaseId i target db hdb ho
    constructor
    · rw [shareEncryptedValue, hdb, Option.some_bind, if_neg ho]
    · rw [refreshAddressAccess, hdb, Option.some_bind, if_neg ho]

/-- Witness for C4 on a concrete input: storing into database 0 of a
freshly deployed contract (no database exists yet) reverts. -/
theorem C4_reverts_atomic_witness :
    storeEncryptedValue initState 7 0 200 100 true 6 = none :=
  C4_reverts_atomic.2.2.2.1 initState 7 0 200 100 true 6 (by decide)

/-- C5: shareEncryptedValue and refreshAddressAccess succeed only when
the caller is the database's owner; on success they grant decryption
rights on the relevant handle (the entry's value handle, respectively the
database's address handle) to the target account and emit a sharing
event; a call by a non-owner account reverts. -/
theorem C5_share_owner_only :
    (∀ st caller databaseId i target st',
      shareEncryptedValue st caller databaseId i target = some st' →
      ∃ db entry, getDatabase st databaseId = some db ∧ caller = db.owner ∧
        db.entries.get? i = some entry ∧
        (entry.cipher, Grantee.account target) ∈ st'.acl ∧
        Event.DatabaseEntryShared databaseId i target ∈ st'.eventLog) ∧
    (∀ st caller databaseId target st',
      refreshAddressAccess st caller databaseId target = some st' →
      ∃ db, getDatabase st databaseId = some db ∧ caller = db.owner ∧
        (db.encryptedAddress, Grantee.account target) ∈ st'.acl ∧
        Event.DatabaseAddressShared databaseId target ∈ st'.eventLog) ∧
    (∀ st caller databaseId i target db,
      getDatabase st databaseId = some db → caller ≠ db.owner →
      shareEncryptedValue st caller databaseId i target = none ∧
      refreshAddressAccess st caller databaseId target = none) := by
  refine ⟨?_, ?_, ?_⟩
  · intro st caller databaseId i target st' h
    obtain ⟨db, entry, hdb, ho, he, rfl⟩ := (shareEncryptedValue_eq_some ..).mp h
    exact ⟨db, entry, hdb, ho, he, by simp, by simp⟩
  · intro st caller databaseId target st' h
    obtain ⟨db, hdb, ho, rfl⟩ := (refreshAddressAccess_eq_some ..).mp h
    exact ⟨db, hdb, ho, by simp, by simp⟩
  · intro st caller databaseId i target db hdb ho
    constructor
    · rw [shareEncryptedValue, hdb, Option.some_bind, if_neg ho]
    · rw [refreshAddressAccess, hdb, Option.some_bind, if_neg ho]

/-- Witness for C5 on the concrete scenario: the owner (account 7) shares
entry 0 of database 0 with account 9; the grant and the event are
present afterwards. -/
theorem C5_share_owner_only_witness :
    ∃ db entry, getDatabase exSt2 0 = some db ∧ 7 = db.owner ∧
      db.entries.get? 0 = some entry ∧
      (entry.cipher, Grantee.account 9) ∈ exSt3.acl ∧
      Event.DatabaseEntryShared 0 0 9 ∈ exSt3.eventLog :=
  C5_share_owner_only.1 exSt2 7 0 0 9 exSt3 (by decide)

/-- C6: after every successful write (createDatabase or
storeEncryptedValue), the ciphertext handle written by that operation
carries decryption rights for the contract itself and for the submitting
account. -/
theorem C6_write_grants :
    (∀ st caller name h p now st' databaseId,
      createDatabase st caller name h p now = some (st', databaseId) →
      (h, Grantee.contractSelf) ∈ st'.acl ∧
      (h, Grantee.account caller) ∈ st'.acl) ∧
    (∀ st caller databaseId v a p now st',
      storeEncryptedValue st caller databaseId v a p now = some st' →
      (v, Grantee.contractSelf) ∈ st'.acl ∧
      (v, Grantee.account caller) ∈ st'.acl) := by
  constructor
  · intro st caller name h p now st' databaseId hc
    obtain ⟨hp, hid, rfl⟩ := (createDatabase_eq_some ..).mp hc
    exact ⟨by simp, by simp⟩
  · intro st caller databaseId v a p now st' hs
    obtain ⟨db, hdb, ha, hp, rfl⟩ := (storeEncryptedValue_eq_some ..).mp hs
    exact ⟨by simp, by simp⟩

/-- Witness for C6 on the concrete scenario: after storing value handle
200, both the contract and the submitter (account 7) hold rights on it. -/
theorem C6_write_grants_witness :
    (200, Grantee.contractSelf) ∈ exSt2.acl ∧
    (200, Grantee.account 7) ∈ exSt2.acl :=
  C6_write_grants.2 exSt1 7 0 200 100 true 6 exSt2 (by decide)

/-- C7: under every operation, every existing database survives with the
same identifier, owner, name, creation timestamp and address handle, and
its entry list is only ever extended at the end — entries are never
removed or reordered, so an entry's index stays the position at which it
was appended, and no database is ever deleted. -/
theorem C7_append_only :
    ∀ st op st', step st op = some st' →
      ∀ databaseId db, getDatabase st databaseId = some db →
        ∃ db', getDatabase st' databaseId = some db' ∧
          db'.owner = db.owner ∧ db'.name = db.name ∧
          db'.createdAt = db.createdAt ∧
          db'.encryptedAddress = db.encryptedAddress ∧
          db.entries <+: db'.entries := by
  intro st op st' hs databaseId db hdb
  cases op with
  | create caller name h p now =>
      simp only [step] at hs
      obtain ⟨⟨st1, id1⟩, hc, hfst⟩ := Option.map_eq_some'.mp hs
      obtain rfl : st1 = st' := hfst
      obtain ⟨hp, hid, rfl⟩ := (createDatabase_eq_some ..).mp hc
      exact ⟨db, lookupDatabase_append st.databases _ databaseId db hdb,
        rfl, rfl, rfl, rfl, List.prefix_refl _⟩
  | store caller storeId v a p now =>
      simp only [step] at hs
      obtain ⟨db0, hdb0, ha, hp, rfl⟩ := (storeEncryptedValue_eq_some ..).mp hs
      by_cases hid : databaseId = storeId
      · subst hid
        rw [hdb] at hdb0
        obtain rfl : db = db0 := Option.some.inj hdb0
        exact ⟨_, lookupDatabase_setDatabase_self st.databases databaseId db _ hdb,
          rfl, rfl, rfl, rfl, List.prefix_append _ _⟩
      · refine ⟨db, ?_, rfl, rfl, rfl, rfl, List.prefix_refl _⟩
        exact (lookupDatabase_setDatabase_ne st.databases storeId databaseId _ hid).trans hdb
  | share caller shareId entryIndex target =>
      simp only [step] at hs
      obtain ⟨db0, entry, hdb0, ho, he, rfl⟩ := (shareEncryptedValue_eq_some ..).mp hs
      exact ⟨db, hdb, rfl, rfl, rfl, rfl, List.prefix_refl _⟩
  | refresh caller refreshId target =>
      simp only [step] at hs
      obtain ⟨db0, hdb0, ho, rfl⟩ := (refreshAddressAccess_eq_some ..).mp hs
      exact ⟨db, hdb, rfl, rfl, rfl, rfl, List.prefix_refl _⟩
  | viewMetadata viewId =>
      simp only [step] at hs
      cases hm : getDatabaseMetadata st viewId with
      | none => rw [hm] at hs; exact absurd hs (by simp)
      | some m =>
          simp only [hm, Option.map_some'] at hs
          obtain rfl : st = st' := Option.some.inj hs
          exact ⟨db, hdb, rfl, rfl, rfl, rfl, List.prefix_refl _⟩
  | viewAddress viewId =>
      simp only [step] at hs
      cases hm : getEncryptedDatabaseAddress st viewId with
      | none => rw [hm] at hs; exact absurd hs (by simp)
      | some m =>
          simp only [hm, Option.map_some'] at hs
          obtain rfl : st = st' := Option.some.inj hs
          exact ⟨db, hdb, rfl, rfl, rfl, rfl, List.prefix_refl _⟩
  | viewEntry viewId entryIndex =>
      simp only [step] at hs
      cases hm : getEncryptedValue st viewId entryIndex with
      | none => rw [hm] at hs; exact absurd hs (by simp)
      | some m =>
          simp only [hm, Option.map_some'] at hs
          obtain rfl : st = st' := Option.some.inj hs
          exact ⟨db, hdb, rfl, rfl, rfl, rfl, List.prefix_refl _⟩
  | viewOwned a =>
      simp only [step] at hs
      obtain rfl : st = st' := Option.some.inj hs
      exact ⟨db, hdb, rfl, rfl, rfl, rfl, List.prefix_refl _⟩

/-- The record stored for "Vault A" right after its creation, used by
concrete witnesses. -/
def exRec0 : DatabaseRecord :=
  { name := "Vault A", owner := 7, createdAt := 5, updatedAt := 5,
    encryptedAddress := 100, entries := [] }

/-- Witness for C7 on the concrete scenario: storing into "Vault A"
preserves the record under identifier 0 with the same owner and extends
its entries. -/
theorem C7_append_only_witness :
    ∃ db', getDatabase exSt2 0 = some db' ∧
      db'.owner = exRec0.owner ∧ db'.name = exRec0.name ∧
      db'.createdAt = exRec0.createdAt ∧
      db'.encryptedAddress = exRec0.encryptedAddress ∧
      exRec0.entries <+: db'.entries :=
  C7_append_only exSt1 (Op.store 7 0 200 100 true 6) exSt2 (by decide) 0 exRec0
    (by decide)

/-- C8: the four view accessors (metadata, encrypted address handle,
entry by index, owned-database identifiers) are pure reads — calling
any of them leaves the entire contract state unchanged. -/
theorem C8_views_pure :
    ∀ st databaseId entryIndex a,
      exec st (Op.viewMetadata databaseId) = st ∧
      exec st (Op.viewAddress databaseId) = st ∧
      exec st (Op.viewEntry databaseId entryIndex) = st ∧
      exec st (Op.viewOwned a) = st := by
  intro st databaseId entryIndex a
  refine ⟨?_, ?_, ?_, ?_⟩
  · cases hm : getDatabaseMetadata st databaseId <;> simp [exec, step, hm]
  · cases hm : getEncryptedDatabaseAddress st databaseId <;> simp [exec, step, hm]
  · cases hm : getEncryptedValue st databaseId entryIndex <;> simp [exec, step, hm]
  · simp [exec, step]

/-- C9: decryption of a stored entry's ciphertext by an account holding
no ACL grant on it fails, and after shareEncryptedValue succeeds for that
account on that entry, the account's decryption succeeds and resolves the
stored handle to its cleartext — the plaintext originally encrypted into
that handle (the stored cipher handle is exactly the one submitted at
store time, so the cleartext is the originally stored value). -/
theorem C9_decryption_requires_grant :
    ∀ plaintextOf st a databaseId i entry,
      getEncryptedValue st databaseId i = some entry →
      ((entry.cipher, Grantee.account a) ∉ st.acl →
        userDecrypt plaintextOf st a entry.cipher = none) ∧
      (∀ caller st', shareEncryptedValue st caller databaseId i a = some st' →
        userDecrypt plaintextOf st' a entry.cipher =
          some (plaintextOf entry.cipher)) := by
  intro pf st a databaseId i entry hget
  constructor
  · intro hno
    rw [userDecrypt, if_neg hno]
  · intro caller st' hsh
    obtain ⟨db, entry', hdb, ho, he, rfl⟩ := (shareEncryptedValue_eq_some ..).mp hsh
    rw [getEncryptedValue, hdb, Option.some_bind] at hget
    rw [hget] at he
    obtain rfl : entry = entry' := Option.some.inj he
    simp [userDecrypt]

/-- Witness for C9 on the concrete scenario: before sharing, account 9
cannot decrypt the stored handle 200; after the owner shares entry 0 with
account 9, decryption succeeds and returns the cleartext the runtime
associates with handle 200. -/
theorem C9_decryption_requires_grant_witness :
    userDecrypt (fun h => h + 1) exSt2 9 200 = none ∧
    userDecrypt (fun h => h + 1) exSt3 9 200 = some (200 + 1) := by
  have h := C9_decryption_requires_grant (fun h => h + 1) exSt2 9 0 0
    { cipher := 200, timestamp := 6, submittedBy := 7 } (by decide)
  exact ⟨h.1 (by decide), h.2 7 exSt3 (by decide)⟩

/-- One step preserves the counter invariant: the public counter equals
both the number of creation events emitted so far and the number of
stored databases. -/
theorem step_counter_invariant (s : ContractState) (op : Op) (s' : ContractState)
    (hs : step s op = some s')
    (h1 : s.nextDatabaseId = (s.eventLog.filter isCreatedEvent).length)
    (h2 : s.nextDatabaseId = s.databases.length) :
    s'.nextDatabaseId = (s'.eventLog.filter isCreatedEvent).length ∧
    s'.nextDatabaseId = s'.databases.length := by
  cases op with
  | create caller name h p now =>
      simp only [step] at hs
      obtain ⟨⟨st1, id1⟩, hc, hfst⟩ := Option.map_eq_some'.mp hs
      obtain rfl : st1 = s' := hfst
      obtain ⟨hp, hid, rfl⟩ := (createDatabase_eq_some ..).mp hc
      constructor
      · simp [List.filter_append, isCreatedEvent, h1]
      · simp [h2]
  | store caller databaseId v a p now =>
      simp only [step] at hs
      obtain ⟨db, hdb, ha, hp, rfl⟩ := (storeEncryptedValue_eq_some ..).mp hs
      constructor
      · simp [List.filter_append, isCreatedEvent, h1]
      · simp [setDatabase_length, h2]
  | share caller databaseId entryIndex target =>
      simp only [step] at hs
      obtain ⟨db, entry, hdb, ho, he, rfl⟩ := (shareEncryptedValue_eq_some ..).mp hs
      constructor
      · simp [List.filter_append, isCreatedEvent, h1]
      · simp [h2]
  | refresh caller databaseId target =>
      simp only [step] at hs
      obtain ⟨db, hdb, ho, rfl⟩ := (refreshAddressAccess_eq_some ..).mp hs
      constructor
      · simp [List.filter_append, isCreatedEvent, h1]
      · simp [h2]
  | viewMetadata databaseId =>
      simp only [step] at hs
      cases hm : getDatabaseMetadata s databaseId with
      | none => rw [hm] at hs; exact absurd hs (by simp)
      | some m =>
          simp only [hm, Option.map_some'] at hs
          obtain rfl : s = s' := Option.some.inj hs
          exact ⟨h1, h2⟩
  | viewAddress databaseId =>
      simp only [step] at hs
      cases hm : getEncryptedDatabaseAddress s databaseId with
      | none => rw [hm] at hs; exact absurd hs (by simp)
      | some m =>
          simp only [hm, Option.map_some'] at hs
          obtain rfl : s = s' := Option.some.inj hs
          exact ⟨h1, h2⟩
  | viewEntry databaseId entryIndex =>
      simp only [step] at hs
      cases hm : getEncryptedValue s databaseId entryIndex with
      | none => rw [hm] at hs; exact absurd hs (by simp)
      | some m =>
          simp only [hm, Option.map_some'] at hs
          obtain rfl : s = s' := Option.some.inj hs
          exact ⟨h1, h2⟩
  | viewOwned a =>
      simp only [step] at hs
      obtain rfl : s = s' := Option.some.inj hs
      exact ⟨h1, h2⟩

/-- C10: in every reachable state the public counter nextDatabaseId
equals the total number of databases ever created on the instance (the
number of creation events emitted, which also equals the number of
records stored since none is ever deleted), and the identifier returned
by a successful createDatabase equals nextDatabaseId - 1 read right after
the call. -/
theorem C10_public_counter :
    (∀ st, Reachable st →
      st.nextDatabaseId = (st.eventLog.filter isCreatedEvent).length ∧
      st.nextDatabaseId = st.databases.length) ∧
    (∀ st caller name h p now st' databaseId,
      createDatabase st caller name h p now = some (st', databaseId) →
      databaseId = st'.nextDatabaseId - 1) := by
  constructor
  · intro st h
    induction h with
    | init => exact ⟨rfl, rfl⟩
    | next hr hstep ih => exact step_counter_invariant _ _ _ hstep ih.1 ih.2
  · intro st caller name h p now st' databaseId hc
    obtain ⟨hp, hid, rfl⟩ := (createDatabase_eq_some ..).mp hc
    simp [hid]

/-- Witness for C10 on the concrete scenario: in the reachable state
after one creation the counter is 1, matching one creation event and one
stored record. -/
theorem C10_public_counter_witness :
    exSt1.nextDatabaseId = (exSt1.eventLog.filter isCreatedEvent).length ∧
    exSt1.nextDatabaseId = exSt1.databases.length :=
  C10_public_counter.1 exSt1
    (Reachable.next Reachable.init
      ((by decide : step initState (Op.create 7 "Vault A" 100 true 5) = some exSt1)))

end ZSecureDB
